import Mathlib

/-!
Shallow embedding of `src/godel-with-comp.py`, a minimal runtime for
μ-recursive function theory: the primitive operators (zero, incr, proj,
comp, rec, mu) and the standard library built from them.

Python function values are variadic (`*args`); we model every function
value uniformly as `Fn := List Nat → Nat`.  A unary source function such
as `incr(n)` becomes the lift that reads its single argument from the
head of the list (calling it with the wrong arity is a programming error
in the source, never exercised by the library).  `proj(i, *args)` raises
IndexError out of range in Python; the library only builds in-range
projections, so we use `List.getD` (the default is unreachable at every
use site verified here).

The unbounded `while True` loop inside `mu` is modelled step-indexed:
`muSearch p xs n fuel` runs at most `fuel` iterations of the loop body
starting at candidate `n`, returning `none` when the fuel runs out.  A
real run of `m(*xs)` returns `v` iff `mu p xs fuel = some v` for some
fuel, and diverges iff `mu p xs fuel = none` for every fuel.
-/

namespace Godel

/-- A function value: maps the tuple of natural-number arguments to a
natural number. -/
abbrev Fn := List Nat → Nat

/-- Source: `def incr(n): return n+1` (unary, lifted to `Fn`). -/
def incr : Fn := fun args => args.headD 0 + 1

/-- Source: `def proj(i, *args): return args[i]`. -/
def proj (i : Nat) (args : List Nat) : Nat := args.getD i 0

/-- Source: `comp(f, *hs)` returns `g(*args) = f(*(h(*args) for h in hs))`. -/
def comp (f : Fn) (hs : List Fn) : Fn :=
  fun args => f (hs.map (fun h => h args))

/-- The inner `h(n, *xs)` of `rec(f, g)`:
`if n == 0: return f(*xs)` else `return g(n-1, h(n-1, *xs), *xs)`. -/
def recH (f g : Fn) : Nat → List Nat → Nat
  | 0, xs => f xs
  | n + 1, xs => g (n :: recH f g n xs :: xs)

/-- Source: `rec(f, g)` returns `h`; the first argument is `n`, the rest
are the extra arguments `xs`. -/
def rec (f g : Fn) : Fn :=
  fun args => recH f g (args.headD 0) args.tail

/-- The `while True` loop body of `mu(p)`, step-indexed by `fuel`:
starting at candidate `n`, test `p(n, *xs) == 0`, return `n` on the
first zero, otherwise `n += 1`.  `none` means the allotted iterations
were exhausted without returning. -/
def muSearch (p : Fn) (xs : List Nat) : Nat → Nat → Option Nat
  | _, 0 => none
  | n, fuel + 1 =>
    if p (n :: xs) = 0 then some n else muSearch p xs (n + 1) fuel

/-- Source: `mu(p)` returns `m(*xs)`, the search from `n = 0` upward;
step-indexed by `fuel`. -/
def mu (p : Fn) (xs : List Nat) (fuel : Nat) : Option Nat :=
  muSearch p xs 0 fuel

/-- Source: `def const(k): return lambda *xs: k`. -/
def const (k : Nat) : Fn := fun _ => k

/-- Source: `mkproj = lambda i: (lambda *xs: proj(i, *xs))`. -/
def mkproj (i : Nat) : Fn := fun xs => proj i xs

/-- Source: `zero = const(0)` (this rebinding shadows the primitive
`def zero(n): return 0`; both return `0` on every call). -/
def zero : Fn := const 0

/-- Source: `one = const(1)`. -/
def one : Fn := const 1

/-- Source: `id = lambda x: proj(0, x)` (unary, lifted to `Fn`). -/
def id : Fn := fun xs => proj 0 xs

/-- Source: `pred = rec(zero, lambda n, y: n)`; the step lambda returns
its first positional argument. -/
def pred : Fn := rec zero (fun args => args.headD 0)

/-- Source: `add_base = id`. -/
def add_base : Fn := id

/-- Source: `add_step = comp(incr, mkproj(1))`. -/
def add_step : Fn := comp incr [mkproj 1]

/-- Source: `add_raw = rec(add_base, add_step)`. -/
def add_raw : Fn := rec add_base add_step

/-- Source: `add = lambda x, y: add_raw(y, x)` (binary, lifted to `Fn`). -/
def add : Fn := fun args => add_raw [args.getD 1 0, args.getD 0 0]

/-- Source: `mul_base = zero`. -/
def mul_base : Fn := zero

/-- Source: `mul_step = comp(add, mkproj(1), mkproj(2))`. -/
def mul_step : Fn := comp add [mkproj 1, mkproj 2]

/-- Source: `mul_raw = rec(mul_base, mul_step)`. -/
def mul_raw : Fn := rec mul_base mul_step

/-- Source: `mul = lambda x, y: mul_raw(y, x)` (binary, lifted to `Fn`). -/
def mul : Fn := fun args => mul_raw [args.getD 1 0, args.getD 0 0]

/-- Source: `exp_base = one`. -/
def exp_base : Fn := one

/-- Source: `exp_step = comp(mul, mkproj(1), mkproj(2))`. -/
def exp_step : Fn := comp mul [mkproj 1, mkproj 2]

/-- Source: `exp_raw = rec(exp_base, exp_step)`. -/
def exp_raw : Fn := rec exp_base exp_step

/-- Source: `exp = lambda x, y: exp_raw(y, x)` (binary, lifted to `Fn`). -/
def exp : Fn := fun args => exp_raw [args.getD 1 0, args.getD 0 0]

/-- Source: `sub_base = id`. -/
def sub_base : Fn := id

/-- Source: `sub_step = comp(pred, mkproj(1))`. -/
def sub_step : Fn := comp pred [mkproj 1]

/-- Source: `sub_raw = rec(sub_base, sub_step)`. -/
def sub_raw : Fn := rec sub_base sub_step

/-- Source: `sub = lambda x, y: sub_raw(y, x)` (binary, lifted to `Fn`). -/
def sub : Fn := fun args => sub_raw [args.getD 1 0, args.getD 0 0]

/-- Source: `is_zero = rec(one, comp(zero))`. -/
def is_zero : Fn := rec one (comp zero [])

/-- Source: `sign = rec(zero, comp(one))`. -/
def sign : Fn := rec zero (comp one [])

/-- Source: `leq = comp(is_zero, sub)`. -/
def leq : Fn := comp is_zero [sub]

/-- Source: `eq = comp(mul, leq, comp(leq, mkproj(1), mkproj(0)))`. -/
def eq : Fn := comp mul [leq, comp leq [mkproj 1, mkproj 0]]

/-- Source: `neq = comp(sign, comp(sub, one, comp(eq, mkproj(0), mkproj(1))))`. -/
def neq : Fn := comp sign [comp sub [one, comp eq [mkproj 0, mkproj 1]]]

/-- Source: `max = comp(add, comp(sub, mkproj(0), mkproj(1)), mkproj(1))`. -/
def max : Fn := comp add [comp sub [mkproj 0, mkproj 1], mkproj 1]

/-- Source: `min = comp(sub, comp(add, mkproj(0), mkproj(1)), comp(max, mkproj(0), mkproj(1)))`. -/
def min : Fn := comp sub [comp add [mkproj 0, mkproj 1], comp max [mkproj 0, mkproj 1]]

/-- The predicate of spec §8's `mu` example, written exactly as the spec
gives it: the one-argument `p(n) = sub(n, 3)` using the library monus. -/
def psub3 : Fn := fun args => sub [args.headD 0, 3]

/-! ### Evaluation lemmas for the standard library -/

theorem pred_eval (n : Nat) : pred [n] = n - 1 := by
  cases n <;> rfl

theorem add_raw_eval (y x : Nat) : add_raw [y, x] = x + y := by
  show recH add_base add_step y [x] = x + y
  induction y with
  | zero => rfl
  | succ m ih =>
    show add_step (m :: recH add_base add_step m [x] :: [x]) = x + (m + 1)
    rw [ih]
    rfl

theorem add_eval (x y : Nat) : add [x, y] = x + y := by
  show add_raw [y, x] = x + y
  exact add_raw_eval y x

theorem mul_raw_eval (y x : Nat) : mul_raw [y, x] = x * y := by
  show recH mul_base mul_step y [x] = x * y
  induction y with
  | zero => rfl
  | succ m ih =>
    show mul_step (m :: recH mul_base mul_step m [x] :: [x]) = x * (m + 1)
    rw [ih]
    show add [x * m, x] = x * (m + 1)
    rw [add_eval, Nat.mul_succ]

theorem mul_eval (x y : Nat) : mul [x, y] = x * y := by
  show mul_raw [y, x] = x * y
  exact mul_raw_eval y x

theorem sub_raw_eval (y x : Nat) : sub_raw [y, x] = x - y := by
  show recH sub_base sub_step y [x] = x - y
  induction y with
  | zero => rfl
  | succ m ih =>
    show sub_step (m :: recH sub_base sub_step m [x] :: [x]) = x - (m + 1)
    rw [ih]
    show pred [x - m] = x - (m + 1)
    rw [pred_eval]
    omega

theorem sub_eval (x y : Nat) : sub [x, y] = x - y := by
  show sub_raw [y, x] = x - y
  exact sub_raw_eval y x

theorem is_zero_eval (n : Nat) : is_zero [n] = if n = 0 then 1 else 0 := by
  cases n <;> rfl

theorem sign_eval (n : Nat) : sign [n] = if n = 0 then 0 else 1 := by
  cases n <;> rfl

theorem leq_eval (x y : Nat) : leq [x, y] = if x ≤ y then 1 else 0 := by
  show is_zero [sub [x, y]] = if x ≤ y then 1 else 0
  rw [sub_eval, is_zero_eval]
  by_cases h : x ≤ y
  · rw [if_pos (Nat.sub_eq_zero_of_le h), if_pos h]
  · rw [if_neg (by omega), if_neg h]

theorem eq_eval (x y : Nat) : eq [x, y] = if x = y then 1 else 0 := by
  show mul [leq [x, y], leq [y, x]] = if x = y then 1 else 0
  rw [mul_eval, leq_eval, leq_eval]
  split_ifs <;> omega

theorem max_eval (x y : Nat) : max [x, y] = if x ≤ y then y else x := by
  show add [sub [x, y], y] = if x ≤ y then y else x
  rw [sub_eval, add_eval]
  split_ifs <;> omega

theorem min_eval (x y : Nat) : min [x, y] = if x ≤ y then x else y := by
  show sub [add [x, y], max [x, y]] = if x ≤ y then x else y
  rw [max_eval, add_eval, sub_eval]
  split_ifs <;> omega

/-! ### Characterization of the `mu` search loop -/

/-- Running the loop from candidate `start` with `fuel` iterations
returns `n0` exactly when `n0` is in the searched window, is a zero of
the predicate, and every earlier candidate from `start` on is not. -/
theorem muSearch_some_iff (p : Fn) (xs : List Nat) :
    ∀ fuel start n0, muSearch p xs start fuel = some n0 ↔
      (start ≤ n0 ∧ n0 < start + fuel ∧ p (n0 :: xs) = 0 ∧
        ∀ k, start ≤ k → k < n0 → p (k :: xs) ≠ 0) := by
  intro fuel
  induction fuel with
  | zero =>
    intro start n0
    constructor
    · intro h
      simp [muSearch] at h
    · rintro ⟨h1, h2, -⟩
      omega
  | succ f ih =>
    intro start n0
    by_cases hp : p (start :: xs) = 0
    · simp only [muSearch, if_pos hp, Option.some.injEq]
      constructor
      · rintro rfl
        exact ⟨Nat.le_refl _, by omega, hp, fun k hk1 hk2 => by omega⟩
      · rintro ⟨h1, h2, h3, h4⟩
        by_contra hne
        exact h4 start (Nat.le_refl _) (by omega) hp
    · simp only [muSearch, if_neg hp]
      rw [ih (start + 1) n0]
      constructor
      · rintro ⟨h1, h2, h3, h4⟩
        refine ⟨by omega, by omega, h3, fun k hk1 hk2 => ?_⟩
        by_cases hk : k = start
        · subst hk
          exact hp
        · exact h4 k (by omega) hk2
      · rintro ⟨h1, h2, h3, h4⟩
        have hsn : start + 1 ≤ n0 := by
          rcases Nat.eq_or_lt_of_le h1 with he | hl
          · exact absurd h3 (he ▸ hp)
          · omega
        exact ⟨hsn, by omega, h3, fun k hk1 hk2 => h4 k (by omega) hk2⟩

/-! ### Claim theorems -/

/-- C1: `mu(p)(x1,…,xm)` returns `n0` exactly when `n0` is a zero of the
predicate, every smaller candidate is not (the search proceeds through
`n = 0, 1, 2, …` in strictly increasing order and stops at the first
zero), and the run was allowed at least `n0 + 1` loop iterations.  In
particular, whenever some zero exists, the run with enough fuel returns
the smallest one. -/
theorem mu_returns_least (p : Fn) (xs : List Nat) (fuel n0 : Nat) :
    mu p xs fuel = some n0 ↔
      (n0 < fuel ∧ p (n0 :: xs) = 0 ∧ ∀ k, k < n0 → p (k :: xs) ≠ 0) := by
  unfold mu
  rw [muSearch_some_iff]
  constructor
  · rintro ⟨-, h2, h3, h4⟩
    exact ⟨by omega, h3, fun k hk => h4 k (Nat.zero_le _) hk⟩
  · rintro ⟨h1, h2, h3⟩
    exact ⟨Nat.zero_le _, by omega, h2, fun k _ hk => h3 k hk⟩

/-- C2: `h = rec(f, g)` satisfies `h(0, xs) = f(xs)` (the base case is
invoked directly, bypassing `g`) and
`h(n+1, xs) = g(n, h(n, xs), xs)`: the step function receives the
predecessor, the fully evaluated recursive result, and the original
extra arguments. -/
theorem rec_unfolds (f g : Fn) (n : Nat) (xs : List Nat) :
    rec f g (0 :: xs) = f xs ∧
      rec f g ((n + 1) :: xs) = g (n :: rec f g (n :: xs) :: xs) :=
  ⟨rfl, rfl⟩

/-- C3: `sub` is truncated subtraction (monus): `sub(x, 0) = x`, and
`sub(x, y) = 0` whenever `x < y`; in particular `sub(7, 10) = 0` and
`sub(10, 7) = 3`. -/
theorem sub_is_monus (x y : Nat) :
    sub [x, 0] = x ∧ (x < y → sub [x, y] = 0) ∧
      sub [7, 10] = 0 ∧ sub [10, 7] = 3 := by
  refine ⟨?_, fun h => ?_, ?_, ?_⟩
  · rw [sub_eval]
    rfl
  · rw [sub_eval]
    omega
  · rw [sub_eval]
  · rw [sub_eval]

theorem sub_is_monus_witness : (7 : Nat) < 10 ∧ Godel.sub [7, 10] = 0 :=
  ⟨by decide, (sub_is_monus 7 10).2.1 (by decide)⟩

/-- C4, counterexample: the spec's worked example applies `mu` to
`p(n) = sub(n, 3)` and asserts the result `3`; but with monus,
`p(0) = sub(0, 3) = 0`, so the ascending search stops already at `0`:
with fuel `10` (more than enough to have reached `3`) the loop returns
`some 0`, not `some 3`. -/
theorem mu_psub3_counterexample :
    mu psub3 [] 10 = some 0 ∧ psub3 [0] = 0 ∧ (some 0 : Option Nat) ≠ some 3 :=
  ⟨rfl, rfl, by decide⟩

/-- C4, amended: applying `mu` to the one-argument predicate
`p(n) = sub(n, 3)` returns `0` (not `3`): monus makes `p` zero at every
`n ≤ 3`, so the ascending search from `0` succeeds immediately; any run
allowed at least one loop iteration returns `some 0`. -/
theorem mu_psub3_amended (fuel : Nat) :
    (mu psub3 [] fuel = some 0 ↔ 0 < fuel) ∧ psub3 [0] = 0 ∧ psub3 [3] = 0 := by
  refine ⟨?_, rfl, rfl⟩
  cases fuel with
  | zero =>
    constructor
    · intro h
      simp [mu, muSearch] at h
    · intro h
      omega
  | succ k =>
    have h0 : psub3 (0 :: ([] : List Nat)) = 0 := rfl
    constructor
    · intro _
      omega
    · intro _
      show muSearch psub3 [] 0 (k + 1) = some 0
      rw [muSearch]
      rw [if_pos h0]

/-- C5: if no natural number is a zero of the predicate, `mu(p)(xs)`
never returns: however many loop iterations the run is allowed, the
search is still going (no value, no error, no artificial bound). -/
theorem mu_never_zero_diverges (p : Fn) (xs : List Nat)
    (h : ∀ n, p (n :: xs) ≠ 0) (fuel : Nat) : mu p xs fuel = none := by
  unfold mu
  suffices hgen : ∀ fuel start, muSearch p xs start fuel = none from hgen fuel 0
  intro fuel
  induction fuel with
  | zero =>
    intro start
    rfl
  | succ f ih =>
    intro start
    rw [muSearch, if_neg (h start)]
    exact ih (start + 1)

theorem mu_never_zero_diverges_witness :
    (∀ n, Godel.one (n :: ([] : List Nat)) ≠ 0) ∧ Godel.mu Godel.one [] 5 = none :=
  ⟨fun n => by simp [Godel.one, Godel.const],
    mu_never_zero_diverges Godel.one []
      (fun n => by simp [Godel.one, Godel.const]) 5⟩

/-- C6: `eq(x, y)` is `1` when `x = y` and `0` otherwise; in particular
`eq(9, 9) = 1` and `eq(9, 8) = 0`. -/
theorem eq_boolean (x y : Nat) :
    eq [x, y] = (if x = y then 1 else 0) ∧ eq [9, 9] = 1 ∧ eq [9, 8] = 0 := by
  refine ⟨eq_eval x y, ?_, ?_⟩
  · rw [eq_eval]
    rfl
  · rw [eq_eval]
    rfl

/-- C7: the derived `add` and `mul` are commutative and `add` is
associative. -/
theorem add_mul_algebra (x y z : Nat) :
    add [x, y] = add [y, x] ∧ mul [x, y] = mul [y, x] ∧
      add [add [x, y], z] = add [x, add [y, z]] := by
  refine ⟨?_, ?_, ?_⟩
  · rw [add_eval, add_eval, Nat.add_comm]
  · rw [mul_eval, mul_eval, Nat.mul_comm]
  · rw [add_eval, add_eval, add_eval, add_eval, Nat.add_assoc]

/-- C8: `pred(incr(n)) = n` for every natural `n`: the derived
predecessor is a left inverse of the successor primitive. -/
theorem pred_incr_inverse (n : Nat) : pred [incr [n]] = n := by
  show pred [n + 1] = n
  rw [pred_eval]
  rfl

/-- C9: `max(x, y)` returns the larger and `min(x, y)` the smaller of
its two arguments, although both are built only from `add` and the
monus `sub`. -/
theorem godel_max_min (x y : Nat) :
    max [x, y] = (if x ≤ y then y else x) ∧
      min [x, y] = (if x ≤ y then x else y) :=
  ⟨max_eval x y, min_eval x y⟩

/-- C10: `is_zero` and `sign` are exact 0/1-valued complements:
`is_zero(n) + sign(n) = 1` for every `n`, with `is_zero(0) = 1`,
`sign(0) = 0`, and the opposite values on every positive `n`. -/
theorem is_zero_sign_complement (n : Nat) :
    is_zero [n] + sign [n] = 1 ∧
      is_zero [n] = (if n = 0 then 1 else 0) ∧
      sign [n] = (if n = 0 then 0 else 1) := by
  refine ⟨?_, is_zero_eval n, sign_eval n⟩
  rw [is_zero_eval, sign_eval]
  split_ifs <;> rfl

end Godel
